import Mathlib

/-
Shallow embedding of `src/bwproject.py` (Brandwatch API client, classes
`BWUser` and `BWProject`).

Modelling conventions:
  * Python strings are `Str := List Char`; the helper `str` converts a Lean
    string literal.
  * Python dicts are association lists over `Str` keys with Python insertion
    semantics (`dInsert` replaces in place, else appends; `dGet` is lookup).
  * JSON response bodies are values of the inductive `Json`; Python operators
    (`in`, subscripting, truthiness, `==` against a string) are embedded as
    `pyContains`, `Json.getItem`, `Json.truthy`, `jsonEqStr`.
  * Raised exceptions become `Except PyErr`; `PyErr` distinguishes an explicit
    `raise KeyError(msg)` or `raise KeyError(msg, payload)` from a failed dict
    subscript, a missing attribute, and a TypeError.
  * The filesystem token file is `Option Str` (`none` means the file does not
    exist, so `open` raises IOError); the auth endpoint is an oracle `Json`
    giving the JSON body the server would return.
  * Networking is modelled by passing the response body in explicitly and,
    where a claim needs it, recording whether a request was issued. The fixed
    0.5 s sleep and the diagnostic URL print are not observable in the model.
-/

abbrev Str := List Char

def str (s : String) : Str := s.data

/-- Python dict lookup `d.get(k)` over an association list. -/
def dGet {β : Type} : List (Str × β) → Str → Option β
  | [], _ => none
  | (k', v) :: rest, k => if k' = k then some v else dGet rest k

/-- Python containment `k in d` for a dict. -/
def dHas {β : Type} (d : List (Str × β)) (k : Str) : Bool :=
  (dGet d k).isSome

/-- Python dict assignment `d[k] = v`: replace in place if the key exists,
otherwise append, preserving insertion order. -/
def dInsert {β : Type} : List (Str × β) → Str → β → List (Str × β)
  | [], k, v => [(k, v)]
  | (k', v') :: rest, k, v =>
      if k' = k then (k, v) :: rest else (k', v') :: dInsert rest k v

/-- Python `dict(pairs)`: left fold of assignments over an empty dict
(later values for a duplicate key win, the first occurrence fixes position). -/
def mkDict {β : Type} (ps : List (Str × β)) : List (Str × β) :=
  ps.foldl (fun d kv => dInsert d kv.1 kv.2) []

/-- JSON values, as parsed from a response body. -/
inductive Json : Type where
  | null : Json
  | b : Bool → Json
  | i : Int → Json
  | s : Str → Json
  | arr : List Json → Json
  | obj : List (Str × Json) → Json

/-- Python exceptions raised by the embedded code. -/
inductive PyErr : Type where
  | keyErrorMsg : Str → PyErr
  | keyErrorPair : Str → Json → PyErr
  | keyLookup : Str → PyErr
  | attrError : Str → PyErr
  | typeError : Str → PyErr

/-- Python truthiness of a JSON value. -/
def Json.truthy : Json → Bool
  | .null => false
  | .b v => v
  | .i v => decide (v ≠ 0)
  | .s v => decide (v ≠ [])
  | .arr v => !v.isEmpty
  | .obj v => !v.isEmpty

/-- Python `x == t` where `t` is a `str`: equal only when `x` is the same
string; values of any other type compare unequal without error. -/
def jsonEqStr : Json → Str → Bool
  | .s v, t => decide (v = t)
  | _, _ => false

/-- Whether the pattern occurs as a contiguous run at the head of the list. -/
def startsWith {α : Type} [DecidableEq α] : List α → List α → Bool
  | _, [] => true
  | [], _ :: _ => false
  | a :: as, b :: bs => decide (a = b) && startsWith as bs

/-- Whether the pattern occurs as a contiguous run anywhere in the list
(Python substring containment for `in` on a `str`). -/
def containsSeq {α : Type} [DecidableEq α] : List α → List α → Bool
  | [], pat => decide (pat = [])
  | a :: t, pat => startsWith (a :: t) pat || containsSeq t pat

/-- Python subscript `x[k]` with a string key: a dict yields the value or
raises a lookup KeyError; a list raises TypeError; anything else is not
subscriptable. -/
def Json.getItem : Json → Str → Except PyErr Json
  | .obj fields, k =>
      match dGet fields k with
      | some v => .ok v
      | none => .error (.keyLookup k)
  | .arr _, _ => .error (.typeError (str "list indices must be integers"))
  | _, _ => .error (.typeError (str "object is not subscriptable"))

/-- Python `k in x` with a string key: key membership for a dict, element
membership for a list, substring test for a string, TypeError otherwise. -/
def pyContains : Json → Str → Except PyErr Bool
  | .obj fields, k => .ok (dHas fields k)
  | .arr xs, k => .ok (xs.any (fun j => jsonEqStr j k))
  | .s v, k => .ok (containsSeq v k)
  | _, _ => .error (.typeError (str "argument is not iterable"))

/-- Python `str(x)` as used on `p["id"]` in `BWProject.get_project`; the
renderings of composite values are abbreviated (they never occur with the
well-formed project lists the claims quantify over). -/
def pyToStr : Json → Str
  | .null => str "None"
  | .b true => str "True"
  | .b false => str "False"
  | .i n => (toString n).data
  | .s v => v
  | .arr _ => str "<list>"
  | .obj _ => str "<dict>"

/-- Python `content.split(sep)` for a one-character separator. -/
def splitChar (sep : Char) : List Char → List (List Char)
  | [] => [[]]
  | c :: cs =>
      if c = sep then [] :: splitChar sep cs
      else
        match splitChar sep cs with
        | [] => [[c]]
        | r :: rs => (c :: r) :: rs

/-- Python `sep.join(pieces)` for a one-character separator. -/
def joinChar (sep : Char) : List (List Char) → List Char
  | [] => []
  | [x] => x
  | x :: xs => x ++ sep :: joinChar sep xs

/-- The pair list `[x.split("\t") for x in content.split("\n") if
len(x.split("\t")) == 2]` of `BWUser.assignAccessToken` (line 158). -/
def tokenPairs (content : Str) : List (Str × Str) :=
  (splitChar '\n' content).filterMap (fun x =>
    match splitChar '\t' x with
    | [a, b] => some (a, b)
    | _ => none)

/-- Parsing of the token file performed by `BWUser.assignAccessToken`
(line 158): split the contents on newlines, keep the lines that split on a
tab into exactly two fields, and build a dict from the resulting pairs. -/
def parseTokens (content : Str) : List (Str × Str) :=
  mkDict (tokenPairs content)

/-- Serialization of the token dict written back by `assignAccessToken`
(line 167): tab-join each pair, newline-join the lines. -/
def serializeTokens (m : List (Str × Str)) : Str :=
  joinChar '\n' (m.map (fun kv => kv.1 ++ '\t' :: kv.2))

/-- Token-store load: the lookup `assignAccessToken` performs on the parsed
file (lines 158-162). -/
def loadToken (content : Str) (u : Str) : Option Str :=
  dGet (parseTokens content) u

/-- Token-store load from an optional file (a missing file is a cache miss). -/
def loadTokenFile (file : Option Str) (u : Str) : Option Str :=
  match file with
  | none => none
  | some c => loadToken c u

/-- Token-store save, as performed by `BWUser.assignAccessToken`: with an
existing, parsed file it rewrites the whole file as the parsed entries with
the new pair assigned (lines 164-168); with no readable file it writes only
the single `username TAB token` line (lines 172-175). -/
def saveToken (file : Option Str) (u t : Str) : Str :=
  match file with
  | some c => serializeTokens (dInsert (parseTokens c) u t)
  | none => u ++ '\t' :: t

/-- A string with no tab and no newline, the well-formedness condition under
which the token-file line format is injective. -/
def Clean (x : Str) : Prop := '\t' ∉ x ∧ '\n' ∉ x

instance (x : Str) : Decidable (Clean x) := by
  unfold Clean; infer_instance

/-- An HTTP request as assembled by `BWUser.bare_request` (lines 124-134):
the concatenated URL, the query-parameter dict after the access-token
injection, the optional body, and the headers. -/
structure HttpRequest : Type where
  url : Str
  params : List (Str × Json)
  body : Option (List (Str × Json))
  headers : List (Str × Str)

/-- What one call of `bare_request` does: the request it sends and either a
raised exception or the pair (were the response errors printed, body). -/
structure DispatchOutcome : Type where
  request : HttpRequest
  result : Except PyErr (Bool × Json)

/-- The fixed API base URL (`BWUser.__init__`, line 30). -/
def apiurl : Str := str "https://newapi.brandwatch.com/"

/-- `BWUser.bare_request` (lines 109-143). `console_report` is the value of
the `console_report` attribute, `none` when the attribute was never assigned
(a plain `BWUser` never assigns it; only `BWProject.__init__` does, line 222),
in which case reading it raises AttributeError. `resp` is the JSON body the
server would answer with. The request is assembled and sent before the body
is inspected; a non-empty access token is written into the params dict in
place; a non-empty `data` adds the JSON content-type header and the body. -/
def bare_request (console_report : Option Bool) (address_root address_suffix : Str)
    (access_token : Str) (params data : List (Str × Json)) (resp : Json) :
    DispatchOutcome :=
  let params' :=
    if access_token ≠ [] then dInsert params (str "access_token") (.s access_token)
    else params
  let req : HttpRequest :=
    { url := address_root ++ address_suffix
      params := params'
      body := if data.isEmpty then none else some data
      headers :=
        if data.isEmpty then []
        else [(str "Content-type", str "application/json")] }
  let res : Except PyErr (Bool × Json) :=
    match pyContains resp (str "errors") with
    | .error e => .error e
    | .ok true =>
        match Json.getItem resp (str "errors") with
        | .error e => .error e
        | .ok ev =>
            if ev.truthy then
              match console_report with
              | none => .error (.attrError (str "console_report"))
              | some b => .ok (b, resp)
            else .ok (false, resp)
    | .ok false => .ok (false, resp)
  ⟨req, res⟩

/-- `BWUser.request` (lines 94-107): delegate to `bare_request` with the
fixed base URL and the session token. -/
def request (console_report : Option Bool) (token address : Str)
    (params data : List (Str × Json)) (resp : Json) : DispatchOutcome :=
  bare_request console_report apiurl address token params data resp

/-- `BWUser.get_projects` (lines 40-48): GET "projects", then return the
`results` field when the body contains that key, else the raw body. -/
def get_projects (console_report : Option Bool) (token : Str) (resp : Json) :
    Except PyErr Json :=
  match (request console_report token (str "projects") [] [] resp).result with
  | .error e => .error e
  | .ok (_, body) =>
      match pyContains body (str "results") with
      | .error e => .error e
      | .ok true => Json.getItem body (str "results")
      | .ok false => .ok body

/-- `BWUser.validate_query_search` (lines 54-72). Returns whether a network
request was issued, paired with the outcome: missing `query` raises before
any request; otherwise `language` defaults to the one-element list "en", the
request is made, and a truthy `errors` field in the body raises the keyed
error carrying the payload. -/
def validate_query_search (console_report : Option Bool) (token : Str)
    (kwargs : List (Str × Json)) (resp : Json) : Bool × Except PyErr Unit :=
  if dHas kwargs (str "query") = false then
    (false, .error (.keyErrorMsg (str "Must pass: query = 'search terms'")))
  else
    let kwargs' :=
      if dHas kwargs (str "language") then kwargs
      else dInsert kwargs (str "language") (.arr [.s (str "en")])
    match (request console_report token (str "query-validation") kwargs' [] resp).result with
    | .error e => (true, .error e)
    | .ok (_, body) =>
        match Json.getItem body (str "errors") with
        | .error e => (true, .error e)
        | .ok ev =>
            if ev.truthy then
              (true, .error (.keyErrorPair (str "Search string error: ") ev))
            else (true, .ok ())

/-- `BWUser.validate_rule_search` (lines 74-92): identical contract against
the address "query-validation/searchwithin". -/
def validate_rule_search (console_report : Option Bool) (token : Str)
    (kwargs : List (Str × Json)) (resp : Json) : Bool × Except PyErr Unit :=
  if dHas kwargs (str "query") = false then
    (false, .error (.keyErrorMsg (str "Must pass: query = 'search terms'")))
  else
    let kwargs' :=
      if dHas kwargs (str "language") then kwargs
      else dInsert kwargs (str "language") (.arr [.s (str "en")])
    match (request console_report token (str "query-validation/searchwithin") kwargs' [] resp).result with
    | .error e => (true, .error e)
    | .ok (_, body) =>
        match Json.getItem body (str "errors") with
        | .error e => (true, .error e)
        | .ok ev =>
            if ev.truthy then
              (true, .error (.keyErrorPair (str "Search string error: ") ev))
            else (true, .ok ())

/-- `BWUser.getAccessToken` (lines 178-191): inspect the token-endpoint
response body. When `access_token` is present and not None its value is
returned; when it is present and None, the dangling inner `if` falls off the
end of the function, which returns None; when it is absent, the code raises
`KeyError("Cannot get access token", body["errors"])` (the subscript itself
raising if `errors` is also absent). -/
def getAccessToken (resp : Json) : Except PyErr Json :=
  match pyContains resp (str "access_token") with
  | .error e => .error e
  | .ok true =>
      match Json.getItem resp (str "access_token") with
      | .error e => .error e
      | .ok .null => .ok .null
      | .ok v => .ok v
  | .ok false =>
      match Json.getItem resp (str "errors") with
      | .error e => .error e
      | .ok errs => .error (.keyErrorPair (str "Cannot get access token") errs)

/-- The environment `BWUser.__init__` runs against: the token file contents
(`none` when the file does not exist) and the body the token endpoint would
return. -/
structure AuthEnv : Type where
  file : Option Str
  authResp : Json

/-- Result of `assignAccessToken`: the token it returned, whether the token
endpoint was contacted, and the token file contents afterwards. -/
structure StoreResult : Type where
  token : Str
  networkCalled : Bool
  fileAfter : Option Str

/-- `BWUser.assignAccessToken` (lines 145-176). A readable file is parsed;
with `fromfile` and a hit the cached token is returned with no network call
and no write. On a miss a fresh token is fetched, assigned into the parsed
dict, and the whole file rewritten as its serialization. When the file does
not exist (IOError), a fresh token is fetched and only the single
`username TAB token` pair is written. A fetched token that is not a string
(for example the implicit None of `getAccessToken`) makes the subsequent
string concatenation or join raise TypeError. -/
def assignAccessToken (username : Str) (fromfile : Bool) (env : AuthEnv) :
    Except PyErr StoreResult :=
  match env.file with
  | none =>
      match getAccessToken env.authResp with
      | .error e => .error e
      | .ok (.s t) => .ok ⟨t, true, some (username ++ '\t' :: t)⟩
      | .ok _ => .error (.typeError (str "can only concatenate str"))
  | some content =>
      let tokens := parseTokens content
      match fromfile, dGet tokens username with
      | true, some t => .ok ⟨t, false, some content⟩
      | _, _ =>
        match getAccessToken env.authResp with
        | .error e => .error e
        | .ok (.s t) =>
            .ok ⟨t, true, some (serializeTokens (dInsert tokens username t))⟩
        | .ok _ => .error (.typeError (str "sequence item 1: expected str instance"))

/-- Result of `BWUser.__init__`: the token the session ends up with, whether
the token store was consulted, whether the auth endpoint was contacted, and
the token file afterwards. -/
structure InitTrace : Type where
  token : Str
  usedStore : Bool
  networkCalled : Bool
  fileAfter : Option Str

/-- `BWUser.__init__` (lines 20-38): a non-empty explicit token is taken
verbatim (no file access, no network); otherwise `assignAccessToken` runs
with `fromfile = True` against the default token path. -/
def BWUser_init (username password token : Str) (env : AuthEnv) :
    Except PyErr InitTrace :=
  if token ≠ [] then .ok ⟨token, false, false, env.file⟩
  else
    match assignAccessToken username true env with
    | .error e => .error e
    | .ok r => .ok ⟨r.token, true, r.networkCalled, r.fileAfter⟩

/-- The project fields set by `BWProject.get_project` (lines 226-245). -/
structure ProjState : Type where
  project_name : Str
  project_id : Json
  project_address : Str

/-- `BWProject.get_project` (lines 226-245): linear scan of the project
list; the first element whose `name` equals the requested name (Python `==`
against a string) fixes the id and the address `projects/<id>/`; when the
scan is exhausted the constructor raises
`KeyError("Project <name> not found")`. -/
def get_project : List Json → Str → Except PyErr ProjState
  | [], project =>
      .error (.keyErrorMsg (str "Project " ++ project ++ str " not found"))
  | p :: ps, project =>
      match Json.getItem p (str "name") with
      | .error e => .error e
      | .ok nv =>
          if jsonEqStr nv project then
            match Json.getItem p (str "id") with
            | .error e => .error e
            | .ok idv =>
                .ok ⟨project, idv, str "projects/" ++ pyToStr idv ++ str "/"⟩
          else get_project ps project

/-- `BWProject.get` (lines 247-258): a project-level GET delegates to
`request` with the project address prepended to the endpoint. -/
def BWProject_get (st : ProjState) (console_report : Option Bool) (token : Str)
    (endpoint : Str) (params : List (Str × Json)) (resp : Json) : DispatchOutcome :=
  request console_report token (st.project_address ++ endpoint) params [] resp

/-- The state a session closes over when `request` is called with its
defaults: `request_params_default` models the single dict object created
once for the `params = ` default of `BWUser.request` (line 94) and shared by
every call that omits `params`. -/
structure SessState : Type where
  console_report : Option Bool
  token : Str
  request_params_default : List (Str × Json)

/-- One call of `BWUser.request`: when `explicitParams` is `none` the call
uses the shared default dict; `bare_request` then assigns
`params["access_token"]` in place (line 126), so the mutated dict — exactly
`request.params` of the outgoing request — becomes the new shared default. -/
def request_call (st : SessState) (address : Str)
    (explicitParams : Option (List (Str × Json))) (resp : Json) :
    SessState × DispatchOutcome :=
  let ps :=
    match explicitParams with
    | some p => p
    | none => st.request_params_default
  let out := bare_request st.console_report apiurl address st.token ps [] resp
  let st' :=
    match explicitParams with
    | none => { st with request_params_default := out.request.params }
    | some _ => st
  (st', out)

/-- A dict whose keys are pairwise distinct (every dict built by `dInsert`
or `mkDict` satisfies this). -/
def NodupKeys {β : Type} (d : List (Str × β)) : Prop :=
  (d.map Prod.fst).Nodup

/-- A token dict whose keys and values are all free of tabs and newlines. -/
def CleanDict (d : List (Str × Str)) : Prop :=
  ∀ kv ∈ d, Clean kv.1 ∧ Clean kv.2

/- ------------------------------------------------------------------ -/
/- Lemmas about the embedded dict and token-store operations.          -/
/- ------------------------------------------------------------------ -/

theorem splitChar_ne_nil (sep : Char) (l : List Char) : splitChar sep l ≠ [] := by
  induction l with
  | nil => simp [splitChar]
  | cons c cs ih =>
      by_cases h : c = sep
      · simp [splitChar, h]
      · simp only [splitChar, if_neg h]
        cases hs : splitChar sep cs with
        | nil => simp
        | cons r rs => simp

theorem splitChar_nosep (sep : Char) (l : List Char) (h : sep ∉ l) :
    splitChar sep l = [l] := by
  induction l with
  | nil => rfl
  | cons c cs ih =>
      have hc : c ≠ sep := fun he => h (he ▸ List.mem_cons_self c cs)
      have hcs : sep ∉ cs := fun hm => h (List.mem_cons_of_mem c hm)
      simp [splitChar, hc, ih hcs]

theorem splitChar_append (sep : Char) (a r : List Char) (h : sep ∉ a) :
    splitChar sep (a ++ sep :: r) = a :: splitChar sep r := by
  induction a with
  | nil => simp [splitChar]
  | cons c cs ih =>
      have hc : c ≠ sep := fun he => h (he ▸ List.mem_cons_self c cs)
      have hcs : sep ∉ cs := fun hm => h (List.mem_cons_of_mem c hm)
      have ih' := ih hcs
      show splitChar sep (c :: (cs ++ sep :: r)) = (c :: cs) :: splitChar sep r
      simp only [splitChar, if_neg hc]
      rw [ih']

theorem not_mem_of_mem_splitChar {sep : Char} {l x : List Char}
    (hx : x ∈ splitChar sep l) : sep ∉ x := by
  induction l generalizing x with
  | nil =>
      simp [splitChar] at hx
      simp [hx]
  | cons c cs ih =>
      by_cases h : c = sep
      · simp only [splitChar, if_pos h] at hx
        rcases List.mem_cons.mp hx with he | hm
        · simp [he]
        · exact ih hm
      · simp only [splitChar, if_neg h] at hx
        cases hs : splitChar sep cs with
        | nil => exact absurd hs (splitChar_ne_nil sep cs)
        | cons r rs =>
            rw [hs] at hx
            rcases List.mem_cons.mp hx with he | hm
            · subst he
              intro hmem
              rcases List.mem_cons.mp hmem with he2 | hm2
              · exact h he2.symm
              · exact ih (hs ▸ List.mem_cons_self r rs) hm2
            · exact ih (hs ▸ List.mem_cons_of_mem r hm)

theorem mem_of_mem_splitChar {sep : Char} {l x : List Char} {c : Char}
    (hx : x ∈ splitChar sep l) (hc : c ∈ x) : c ∈ l := by
  induction l generalizing x with
  | nil =>
      simp [splitChar] at hx
      subst hx
      exact absurd hc (List.not_mem_nil c)
  | cons a as ih =>
      by_cases h : a = sep
      · simp only [splitChar, if_pos h] at hx
        rcases List.mem_cons.mp hx with he | hm
        · subst he; exact absurd hc (List.not_mem_nil c)
        · exact List.mem_cons_of_mem a (ih hm hc)
      · simp only [splitChar, if_neg h] at hx
        cases hs : splitChar sep as with
        | nil => exact absurd hs (splitChar_ne_nil sep as)
        | cons r rs =>
            rw [hs] at hx
            rcases List.mem_cons.mp hx with he | hm
            · subst he
              rcases List.mem_cons.mp hc with he2 | hm2
              · exact he2 ▸ List.mem_cons_self a as
              · exact List.mem_cons_of_mem a (ih (hs ▸ List.mem_cons_self r rs) hm2)
            · exact List.mem_cons_of_mem a (ih (hs ▸ List.mem_cons_of_mem r hm) hc)

theorem dGet_dInsert_self {β : Type} (d : List (Str × β)) (k : Str) (v : β) :
    dGet (dInsert d k v) k = some v := by
  induction d with
  | nil => simp [dInsert, dGet]
  | cons kv rest ih =>
      obtain ⟨k', v'⟩ := kv
      by_cases h : k' = k
      · simp [dInsert, dGet, h]
      · simp [dInsert, dGet, h, ih]

theorem dGet_dInsert_ne {β : Type} (d : List (Str × β)) (k k' : Str) (v : β)
    (h : k' ≠ k) : dGet (dInsert d k v) k' = dGet d k' := by
  have h2 : ¬ k = k' := fun he => h he.symm
  induction d with
  | nil => simp [dInsert, dGet, h2]
  | cons kv rest ih =>
      obtain ⟨k0, v0⟩ := kv
      by_cases h0 : k0 = k
      · subst h0
        simp [dInsert, dGet, h2]
      · simp only [dInsert, if_neg h0, dGet]
        by_cases h1 : k0 = k'
        · simp [h1]
        · simp [h1, ih]

theorem mem_dInsert {β : Type} {d : List (Str × β)} {k : Str} {v : β}
    {kv : Str × β} (h : kv ∈ dInsert d k v) : kv ∈ d ∨ kv = (k, v) := by
  induction d with
  | nil => simp [dInsert] at h; simp [h]
  | cons kv0 rest ih =>
      obtain ⟨k0, v0⟩ := kv0
      by_cases h0 : k0 = k
      · simp only [dInsert, if_pos h0] at h
        rcases List.mem_cons.mp h with he | hm
        · exact Or.inr he
        · exact Or.inl (List.mem_cons_of_mem _ hm)
      · simp only [dInsert, if_neg h0] at h
        rcases List.mem_cons.mp h with he | hm
        · subst he
          exact Or.inl (List.mem_cons_self _ _)
        · rcases ih hm with hd | hkv
          · exact Or.inl (List.mem_cons_of_mem _ hd)
          · exact Or.inr hkv

theorem mem_keys_dInsert {β : Type} {d : List (Str × β)} {k a : Str} {v : β}
    (h : a ∈ (dInsert d k v).map Prod.fst) :
    a = k ∨ a ∈ d.map Prod.fst := by
  rcases List.mem_map.mp h with ⟨kv, hkv, hfst⟩
  rcases mem_dInsert hkv with hd | he
  · exact Or.inr (hfst ▸ List.mem_map_of_mem Prod.fst hd)
  · subst he; exact Or.inl hfst.symm

theorem nodupKeys_dInsert {β : Type} {d : List (Str × β)} (k : Str) (v : β)
    (h : NodupKeys d) : NodupKeys (dInsert d k v) := by
  induction d with
  | nil => simp [NodupKeys, dInsert]
  | cons kv0 rest ih =>
      obtain ⟨k0, v0⟩ := kv0
      simp only [NodupKeys, List.map_cons, List.nodup_cons] at h
      obtain ⟨h0, hrest⟩ := h
      by_cases hk : k0 = k
      · subst hk
        have hred : dInsert ((k0, v0) :: rest) k0 v = (k0, v) :: rest := by
          simp [dInsert]
        rw [hred]
        simp only [NodupKeys, List.map_cons, List.nodup_cons]
        exact ⟨h0, hrest⟩
      · simp only [dInsert, if_neg hk, NodupKeys, List.map_cons, List.nodup_cons]
        constructor
        · intro hmem
          rcases mem_keys_dInsert hmem with he | hm
          · exact hk he
          · exact h0 hm
        · exact ih hrest

theorem foldl_dInsert_nodupKeys {β : Type} (ps : List (Str × β))
    (d : List (Str × β)) (h : NodupKeys d) :
    NodupKeys (ps.foldl (fun d kv => dInsert d kv.1 kv.2) d) := by
  induction ps generalizing d with
  | nil => exact h
  | cons kv rest ih => exact ih _ (nodupKeys_dInsert kv.1 kv.2 h)

theorem mkDict_nodupKeys {β : Type} (ps : List (Str × β)) :
    NodupKeys (mkDict ps) :=
  foldl_dInsert_nodupKeys ps [] (by simp [NodupKeys])

theorem mem_foldl_dInsert {β : Type} {ps : List (Str × β)}
    {d : List (Str × β)} {kv : Str × β}
    (h : kv ∈ ps.foldl (fun d kv => dInsert d kv.1 kv.2) d) :
    kv ∈ d ∨ kv ∈ ps := by
  induction ps generalizing d with
  | nil => exact Or.inl h
  | cons kv0 rest ih =>
      obtain ⟨k0, v0⟩ := kv0
      rcases ih h with hd | hr
      · rcases mem_dInsert hd with hd2 | he
        · exact Or.inl hd2
        · subst he
          exact Or.inr (List.mem_cons_self _ _)
      · exact Or.inr (List.mem_cons_of_mem _ hr)

theorem mem_mkDict {β : Type} {ps : List (Str × β)} {kv : Str × β}
    (h : kv ∈ mkDict ps) : kv ∈ ps := by
  rcases mem_foldl_dInsert h with hd | hp
  · exact absurd hd (List.not_mem_nil kv)
  · exact hp

theorem dInsert_of_not_mem_keys {β : Type} {d : List (Str × β)} {k : Str}
    (v : β) (h : k ∉ d.map Prod.fst) : dInsert d k v = d ++ [(k, v)] := by
  induction d with
  | nil => rfl
  | cons kv0 rest ih =>
      obtain ⟨k0, v0⟩ := kv0
      have hk : k0 ≠ k := fun he =>
        h (by rw [List.map_cons, he]; exact List.mem_cons_self k _)
      have hrest : k ∉ rest.map Prod.fst := fun hm =>
        h (by rw [List.map_cons]; exact List.mem_cons_of_mem k0 hm)
      simp [dInsert, hk, ih hrest]

theorem foldl_dInsert_of_nodupKeys {β : Type} (ps : List (Str × β)) :
    ∀ d : List (Str × β), NodupKeys (d ++ ps) →
      ps.foldl (fun d kv => dInsert d kv.1 kv.2) d = d ++ ps := by
  induction ps with
  | nil => intro d _; simp
  | cons kv rest ih =>
      intro d h
      obtain ⟨k, v⟩ := kv
      have hk : k ∉ d.map Prod.fst := by
        intro hm
        have hnd : ((d ++ (k, v) :: rest).map Prod.fst).Nodup := h
        rw [List.map_append] at hnd
        have := List.disjoint_of_nodup_append hnd
        exact this hm (by rw [List.map_cons]; exact List.mem_cons_self k _)
      have hstep : dInsert d k v = d ++ [(k, v)] := dInsert_of_not_mem_keys v hk
      have happ : (d ++ [(k, v)]) ++ rest = d ++ (k, v) :: rest := by simp
      calc ((k, v) :: rest).foldl (fun d kv => dInsert d kv.1 kv.2) d
          = rest.foldl (fun d kv => dInsert d kv.1 kv.2) (dInsert d k v) := rfl
        _ = rest.foldl (fun d kv => dInsert d kv.1 kv.2) (d ++ [(k, v)]) := by rw [hstep]
        _ = (d ++ [(k, v)]) ++ rest := ih _ (by rw [happ]; exact h)
        _ = d ++ (k, v) :: rest := happ

theorem mkDict_of_nodupKeys {β : Type} (ps : List (Str × β))
    (h : NodupKeys ps) : mkDict ps = ps := by
  have := foldl_dInsert_of_nodupKeys ps [] (by simpa using h)
  simpa [mkDict] using this

theorem splitChar_tab_pair {k v : Str} (hk : Clean k) (hv : Clean v) :
    splitChar '\t' (k ++ '\t' :: v) = [k, v] := by
  rw [splitChar_append '\t' k v hk.1, splitChar_nosep '\t' v hv.1]

theorem newline_not_mem_pairLine {k v : Str} (hk : Clean k) (hv : Clean v) :
    '\n' ∉ k ++ '\t' :: v := by
  intro hmem
  rcases List.mem_append.mp hmem with hin | hin
  · exact hk.2 hin
  · rcases List.mem_cons.mp hin with he | hin2
    · exact absurd he (by decide)
    · exact hv.2 hin2

theorem tokenPairs_single_line {k v : Str} (hk : Clean k) (hv : Clean v) :
    tokenPairs (k ++ '\t' :: v) = [(k, v)] := by
  unfold tokenPairs
  rw [splitChar_nosep '\n' _ (newline_not_mem_pairLine hk hv)]
  simp [splitChar_tab_pair hk hv]

theorem tokenPairs_cons_line {k v : Str} (hk : Clean k) (hv : Clean v)
    (rest : Str) :
    tokenPairs ((k ++ '\t' :: v) ++ '\n' :: rest) = (k, v) :: tokenPairs rest := by
  unfold tokenPairs
  rw [splitChar_append '\n' _ _ (newline_not_mem_pairLine hk hv),
    List.filterMap_cons]
  simp [splitChar_tab_pair hk hv]

theorem tokenPairs_serializeTokens (m : List (Str × Str)) (h : CleanDict m) :
    tokenPairs (serializeTokens m) = m := by
  induction m with
  | nil => rfl
  | cons kv tl ih =>
      obtain ⟨k, v⟩ := kv
      have hk : Clean k := (h (k, v) (List.mem_cons_self _ _)).1
      have hv : Clean v := (h (k, v) (List.mem_cons_self _ _)).2
      cases tl with
      | nil => exact tokenPairs_single_line hk hv
      | cons p ps =>
          have htl : CleanDict (p :: ps) := fun kv2 hkv2 =>
            h kv2 (List.mem_cons_of_mem _ hkv2)
          have hser : serializeTokens ((k, v) :: p :: ps) =
              (k ++ '\t' :: v) ++ '\n' :: serializeTokens (p :: ps) := rfl
          rw [hser, tokenPairs_cons_line hk hv, ih htl]

theorem parseTokens_serializeTokens (m : List (Str × Str)) (hc : CleanDict m)
    (hn : NodupKeys m) : parseTokens (serializeTokens m) = m := by
  unfold parseTokens
  rw [tokenPairs_serializeTokens m hc, mkDict_of_nodupKeys m hn]

theorem clean_of_mem_tokenPairs {c : Str} {kv : Str × Str}
    (hkv : kv ∈ tokenPairs c) : Clean kv.1 ∧ Clean kv.2 := by
  unfold tokenPairs at hkv
  rcases List.mem_filterMap.mp hkv with ⟨x, hx, hfx⟩
  have hnl : '\n' ∉ x := not_mem_of_mem_splitChar hx
  cases hsp : splitChar '\t' x with
  | nil => rw [hsp] at hfx; exact Option.noConfusion hfx
  | cons a rest =>
      cases rest with
      | nil => rw [hsp] at hfx; exact Option.noConfusion hfx
      | cons b rest2 =>
          cases rest2 with
          | cons x2 rest3 => rw [hsp] at hfx; exact Option.noConfusion hfx
          | nil =>
              rw [hsp] at hfx
              have hfx' : some (a, b) = some kv := hfx
              have heq : (a, b) = kv := Option.some.inj hfx'
              have ha : a ∈ splitChar '\t' x := by
                rw [hsp]; exact List.mem_cons_self _ _
              have hb : b ∈ splitChar '\t' x := by
                rw [hsp]
                exact List.mem_cons_of_mem _ (List.mem_cons_self _ _)
              have ca : Clean a :=
                ⟨not_mem_of_mem_splitChar ha,
                 fun hm => hnl (mem_of_mem_splitChar ha hm)⟩
              have cb : Clean b :=
                ⟨not_mem_of_mem_splitChar hb,
                 fun hm => hnl (mem_of_mem_splitChar hb hm)⟩
              rw [← heq]
              exact ⟨ca, cb⟩

theorem cleanDict_parseTokens (c : Str) : CleanDict (parseTokens c) :=
  fun _ hkv => clean_of_mem_tokenPairs (mem_mkDict hkv)

theorem nodupKeys_parseTokens (c : Str) : NodupKeys (parseTokens c) :=
  mkDict_nodupKeys _

theorem cleanDict_dInsert {d : List (Str × Str)} {k v : Str}
    (hd : CleanDict d) (hk : Clean k) (hv : Clean v) :
    CleanDict (dInsert d k v) := by
  intro kv hkv
  rcases mem_dInsert hkv with hm | he
  · exact hd kv hm
  · rw [he]
    exact ⟨hk, hv⟩

theorem parseTokens_saveToken_some (c u t : Str) (hu : Clean u)
    (ht : Clean t) :
    parseTokens (saveToken (some c) u t) = dInsert (parseTokens c) u t :=
  parseTokens_serializeTokens _
    (cleanDict_dInsert (cleanDict_parseTokens c) hu ht)
    (nodupKeys_dInsert _ _ (nodupKeys_parseTokens c))

theorem parseTokens_saveToken_none (u t : Str) (hu : Clean u)
    (ht : Clean t) : parseTokens (saveToken none u t) = [(u, t)] := by
  have h1 : saveToken none u t = serializeTokens [(u, t)] := rfl
  rw [h1]
  refine parseTokens_serializeTokens _ ?_ ?_
  · intro kv hkv
    rcases List.mem_singleton.mp hkv with he
    rw [he]
    exact ⟨hu, ht⟩
  · simp [NodupKeys]

theorem loadToken_saveToken_self (f : Option Str) (u t : Str)
    (hu : Clean u) (ht : Clean t) :
    loadToken (saveToken f u t) u = some t := by
  cases f with
  | none =>
      unfold loadToken
      rw [parseTokens_saveToken_none u t hu ht]
      simp [dGet]
  | some c =>
      unfold loadToken
      rw [parseTokens_saveToken_some c u t hu ht]
      exact dGet_dInsert_self _ _ _

theorem loadToken_saveToken_other (f : Option Str) (u t u' : Str)
    (hu : Clean u) (ht : Clean t) (hne : u' ≠ u)
    (hmiss : loadTokenFile f u' = none) :
    loadToken (saveToken f u t) u' = none := by
  cases f with
  | none =>
      have hne2 : ¬ u = u' := fun he => hne he.symm
      unfold loadToken
      rw [parseTokens_saveToken_none u t hu ht]
      simp [dGet, hne2]
  | some c =>
      unfold loadToken
      rw [parseTokens_saveToken_some c u t hu ht,
        dGet_dInsert_ne _ _ _ _ hne]
      exact hmiss

theorem assignAccessToken_hit (u : Str) (env : AuthEnv) (c t : Str)
    (hf : env.file = some c) (hload : loadToken c u = some t) :
    assignAccessToken u true env = .ok ⟨t, false, some c⟩ := by
  unfold assignAccessToken
  rw [hf]
  unfold loadToken at hload
  simp [hload]

theorem assignAccessToken_miss_some (u s c : Str) (env : AuthEnv)
    (hf : env.file = some c) (hmiss : loadToken c u = none)
    (hfetch : getAccessToken env.authResp = .ok (.s s)) :
    assignAccessToken u true env = .ok ⟨s, true, some (saveToken (some c) u s)⟩ := by
  unfold assignAccessToken
  rw [hf]
  unfold loadToken at hmiss
  simp [hmiss, hfetch]
  rfl

theorem assignAccessToken_nofile (u s : Str) (env : AuthEnv)
    (hf : env.file = none)
    (hfetch : getAccessToken env.authResp = .ok (.s s)) :
    assignAccessToken u true env = .ok ⟨s, true, some (saveToken none u s)⟩ := by
  unfold assignAccessToken
  rw [hf, hfetch]
  rfl

/-- Claim C1: token resolution precedence at session construction. A
non-empty explicit token is used verbatim with no token-store access and no
network call; otherwise a username with an entry in the token file gets the
cached token with no auth network call; otherwise a fresh token is fetched
and persisted in the token file before being returned. -/
theorem claimC1_token_resolution (u p tok : Str) (env : AuthEnv) :
    (tok ≠ [] →
      BWUser_init u p tok env = .ok ⟨tok, false, false, env.file⟩)
    ∧ (∀ c t, tok = [] → env.file = some c → loadToken c u = some t →
      BWUser_init u p tok env = .ok ⟨t, true, false, some c⟩)
    ∧ (∀ s, tok = [] → loadTokenFile env.file u = none →
      getAccessToken env.authResp = .ok (.s s) → Clean u → Clean s →
      ∃ f', BWUser_init u p tok env = .ok ⟨s, true, true, some f'⟩ ∧
        loadToken f' u = some s) := by
  refine ⟨?_, ?_, ?_⟩
  · intro h
    unfold BWUser_init
    rw [if_pos h]
  · intro c t htok hf hload
    subst htok
    unfold BWUser_init
    rw [if_neg (by simp), assignAccessToken_hit u env c t hf hload]
  · intro s htok hmiss hfetch hu hs
    subst htok
    cases hfile : env.file with
    | none =>
        refine ⟨saveToken none u s, ?_, loadToken_saveToken_self none u s hu hs⟩
        unfold BWUser_init
        rw [if_neg (by simp), assignAccessToken_nofile u s env hfile hfetch]
    | some c =>
        have hmiss' : loadToken c u = none := by
          unfold loadTokenFile at hmiss
          rw [hfile] at hmiss
          exact hmiss
        refine ⟨saveToken (some c) u s, ?_,
          loadToken_saveToken_self (some c) u s hu hs⟩
        unfold BWUser_init
        rw [if_neg (by simp),
          assignAccessToken_miss_some u s c env hfile hmiss' hfetch]

/-- Witness for claim C1: all three precedence branches at concrete inputs.
The explicit token "T" wins outright; with an empty explicit token the file
entry for alice is reused with no network call; with no file a fresh token
"fresh" is fetched and can be loaded back from the written file. -/
theorem claimC1_witness :
    BWUser_init (str "alice") (str "pw") (str "T")
        ⟨none, Json.null⟩ = .ok ⟨str "T", false, false, none⟩
    ∧ BWUser_init (str "alice") (str "pw") []
        ⟨some (str "alice\ttok123"), Json.null⟩ =
        .ok ⟨str "tok123", true, false, some (str "alice\ttok123")⟩
    ∧ ∃ f', BWUser_init (str "alice") (str "pw") []
        ⟨none, Json.obj [(str "access_token", Json.s (str "fresh"))]⟩ =
        .ok ⟨str "fresh", true, true, some f'⟩ ∧
        loadToken f' (str "alice") = some (str "fresh") := by
  refine ⟨?_, ?_, ?_⟩
  · exact (claimC1_token_resolution (str "alice") (str "pw") (str "T")
      ⟨none, Json.null⟩).1 (by decide)
  · exact (claimC1_token_resolution (str "alice") (str "pw") []
      ⟨some (str "alice\ttok123"), Json.null⟩).2.1 (str "alice\ttok123")
      (str "tok123") rfl rfl (by decide)
  · exact (claimC1_token_resolution (str "alice") (str "pw") []
      ⟨none, Json.obj [(str "access_token", Json.s (str "fresh"))]⟩).2.2
      (str "fresh") rfl rfl rfl (by decide) (by decide)

/-- Claim C2: the claim states that the token fetch fails with AuthError
exactly when `access_token` is absent or null. The code instead returns
None when the field is present but null: the inner `if` of
`getAccessToken` has no raise branch, so the function falls off the end.
This theorem evaluates the embedded code at that failing input. -/
theorem claimC2_null_access_token_returns_none :
    getAccessToken (Json.obj [(str "access_token", Json.null),
      (str "errors", Json.arr [Json.s (str "invalid credentials")])]) =
      .ok Json.null := rfl

/-- Claim C3: the claim states the dispatcher never raises on an
error-bearing body, printing it only when console reporting is enabled. On
a plain `BWUser` the `console_report` attribute is never assigned (only
`BWProject.__init__` line 222 assigns it), so the condition on line 136
raises AttributeError as soon as the body carries a truthy `errors` field.
This theorem evaluates the embedded dispatcher at that failing input. -/
theorem claimC3_missing_console_report_raises :
    (bare_request none apiurl (str "projects") (str "tok") [] []
      (Json.obj [(str "errors", Json.arr [Json.s (str "oops")])])).result =
      .error (.attrError (str "console_report")) := rfl

theorem get_project_skip (pre rest : List Json) (project : Str)
    (h : ∀ q ∈ pre, ∃ v, Json.getItem q (str "name") = .ok v ∧
      jsonEqStr v project = false) :
    get_project (pre ++ rest) project = get_project rest project := by
  induction pre with
  | nil => rfl
  | cons q qs ih =>
      obtain ⟨v, hv, hne⟩ := h q (List.mem_cons_self _ _)
      have hqs := fun q2 hq2 => h q2 (List.mem_cons_of_mem _ hq2)
      show get_project (q :: (qs ++ rest)) project = get_project rest project
      rw [get_project, hv]
      simp only [hne]
      rw [ih hqs]
      simp

theorem get_project_head_match (p : Json) (post : List Json) (project : Str)
    (idv : Json)
    (hname : Json.getItem p (str "name") = .ok (.s project))
    (hid : Json.getItem p (str "id") = .ok idv) :
    get_project (p :: post) project =
      .ok ⟨project, idv, str "projects/" ++ pyToStr idv ++ str "/"⟩ := by
  rw [get_project, hname]
  simp [jsonEqStr, hid]

theorem get_project_nomatch (projects : List Json) (project : Str)
    (h : ∀ q ∈ projects, ∃ v, Json.getItem q (str "name") = .ok v ∧
      jsonEqStr v project = false) :
    get_project projects project =
      .error (.keyErrorMsg (str "Project " ++ project ++ str " not found")) := by
  have hs := get_project_skip projects [] project h
  rw [List.append_nil] at hs
  rw [hs]
  rfl

/-- Claim C4: project resolution is a linear scan taking the first element
whose name equals the requested name; the address becomes
`projects/<id>/` and every later verb call on endpoint e targets that
address followed by e; when no element matches, construction raises the
not-found KeyError and no session results. -/
theorem claimC4_project_resolution (pre post projects : List Json) (p : Json)
    (project : Str) (n : Int) :
    ((∀ q ∈ pre, ∃ v, Json.getItem q (str "name") = .ok v ∧
        jsonEqStr v project = false) →
      Json.getItem p (str "name") = .ok (.s project) →
      Json.getItem p (str "id") = .ok (.i n) →
      get_project (pre ++ p :: post) project =
        .ok ⟨project, .i n, str "projects/" ++ pyToStr (.i n) ++ str "/"⟩
      ∧ ∀ (cr : Option Bool) (tok e : Str) (ps : List (Str × Json))
          (resp : Json),
          (BWProject_get
              ⟨project, .i n, str "projects/" ++ pyToStr (.i n) ++ str "/"⟩
              cr tok e ps resp).request.url =
            apiurl ++ ((str "projects/" ++ pyToStr (.i n) ++ str "/") ++ e))
    ∧ ((∀ q ∈ projects, ∃ v, Json.getItem q (str "name") = .ok v ∧
        jsonEqStr v project = false) →
      get_project projects project =
        .error (.keyErrorMsg (str "Project " ++ project ++ str " not found"))) := by
  constructor
  · intro hpre hname hid
    constructor
    · rw [get_project_skip pre (p :: post) project hpre,
        get_project_head_match p post project (.i n) hname hid]
    · intro cr tok e ps resp
      rfl
  · intro hall
    exact get_project_nomatch projects project hall

/-- Witness for claim C4: resolving "Acme" in a list whose first element is
named "Other" and second is Acme with id 42 yields address "projects/42/",
a GET on endpoint "queries" targets the full URL, and resolving "Missing"
in the same list raises the not-found KeyError. -/
theorem claimC4_witness :
    get_project
        [Json.obj [(str "name", Json.s (str "Other")), (str "id", Json.i 7)],
         Json.obj [(str "name", Json.s (str "Acme")), (str "id", Json.i 42)]]
        (str "Acme") =
      .ok ⟨str "Acme", Json.i 42,
        str "projects/" ++ pyToStr (Json.i 42) ++ str "/"⟩
    ∧ (BWProject_get
        ⟨str "Acme", Json.i 42, str "projects/" ++ pyToStr (Json.i 42) ++ str "/"⟩
        (some true) (str "tok") (str "queries") [] Json.null).request.url =
      apiurl ++ ((str "projects/" ++ pyToStr (Json.i 42) ++ str "/") ++ str "queries")
    ∧ get_project
        [Json.obj [(str "name", Json.s (str "Other")), (str "id", Json.i 7)]]
        (str "Missing") =
      .error (.keyErrorMsg (str "Project " ++ str "Missing" ++ str " not found")) := by
  have h := claimC4_project_resolution
    [Json.obj [(str "name", Json.s (str "Other")), (str "id", Json.i 7)]]
    [] [Json.obj [(str "name", Json.s (str "Other")), (str "id", Json.i 7)]]
    (Json.obj [(str "name", Json.s (str "Acme")), (str "id", Json.i 42)])
    (str "Acme") 42
  have h2 := claimC4_project_resolution [] []
    [Json.obj [(str "name", Json.s (str "Other")), (str "id", Json.i 7)]]
    (Json.obj []) (str "Missing") 0
  obtain ⟨hmain, hurl⟩ := h.1
    (by
      intro q hq
      rcases List.mem_singleton.mp hq with rfl
      exact ⟨Json.s (str "Other"), rfl, by decide⟩)
    rfl rfl
  refine ⟨hmain, hurl (some true) (str "tok") (str "queries") [] Json.null, ?_⟩
  exact h2.2
    (by
      intro q hq
      rcases List.mem_singleton.mp hq with rfl
      exact ⟨Json.s (str "Other"), rfl, by decide⟩)

/-- Claim C5: the claim states each validator fails with ValidationError
if and only if the response's `errors` field is truthy. On a plain
`BWUser` (the class that defines the validators) the dispatcher's
`console_report` read raises AttributeError for exactly those responses,
so the call fails with AttributeError instead of the documented search
error. This theorem evaluates the embedded validator at that failing
input; the rule-search validator shares the code path. -/
theorem claimC5_validator_attribute_error :
    validate_query_search none (str "tok")
      [(str "query", Json.s (str "cat AND"))]
      (Json.obj [(str "errors", Json.arr [Json.s (str "unbalanced")])]) =
      (true, .error (.attrError (str "console_report"))) := rfl

/-- Claim C6: token-store save asymmetry. When the token file existed and
parsed, saving (which happens on a cache miss with a fetched token) rewrites
the whole file so that it parses back to the existing entries merged with
the new username/token pair; when the file was absent, the write is exactly
the single `username TAB token` pair and nothing else. -/
theorem claimC6_save_asymmetry (u p s : Str) (env : AuthEnv) :
    (∀ c, env.file = some c → loadToken c u = none →
      getAccessToken env.authResp = .ok (.s s) → Clean u → Clean s →
      ∃ f', BWUser_init u p [] env = .ok ⟨s, true, true, some f'⟩ ∧
        parseTokens f' = dInsert (parseTokens c) u s)
    ∧ (env.file = none → getAccessToken env.authResp = .ok (.s s) →
      BWUser_init u p [] env = .ok ⟨s, true, true, some (u ++ '\t' :: s)⟩) := by
  constructor
  · intro c hf hmiss hfetch hu hs
    refine ⟨saveToken (some c) u s, ?_, parseTokens_saveToken_some c u s hu hs⟩
    unfold BWUser_init
    rw [if_neg (by simp), assignAccessToken_miss_some u s c env hf hmiss hfetch]
  · intro hf hfetch
    unfold BWUser_init
    rw [if_neg (by simp), assignAccessToken_nofile u s env hf hfetch]
    rfl

/-- Witness for claim C6: a merge save against a file holding bob's token
keeps bob and adds alice; the no-file save writes exactly one pair. -/
theorem claimC6_witness :
    (∃ f', BWUser_init (str "alice") (str "pw") []
        ⟨some (str "bob\tB"), Json.obj [(str "access_token", Json.s (str "A"))]⟩ =
        .ok ⟨str "A", true, true, some f'⟩ ∧
      parseTokens f' = dInsert (parseTokens (str "bob\tB")) (str "alice") (str "A"))
    ∧ BWUser_init (str "alice") (str "pw") []
        ⟨none, Json.obj [(str "access_token", Json.s (str "A"))]⟩ =
        .ok ⟨str "A", true, true, some (str "alice" ++ '\t' :: str "A")⟩ := by
  constructor
  · exact (claimC6_save_asymmetry (str "alice") (str "pw") (str "A")
      ⟨some (str "bob\tB"), Json.obj [(str "access_token", Json.s (str "A"))]⟩).1
      (str "bob\tB") rfl (by decide) rfl (by decide) (by decide)
  · exact (claimC6_save_asymmetry (str "alice") (str "pw") (str "A")
      ⟨none, Json.obj [(str "access_token", Json.s (str "A"))]⟩).2 rfl rfl

/-- Claim C7 counterexample: the round-trip fails for a username containing
a tab. Saving the pair writes the line `a TAB b TAB tok`, which splits into
three fields and is discarded on parse, so the load is a cache miss instead
of the saved token. -/
theorem claimC7_counterexample :
    loadToken (saveToken none (str "a\tb") (str "tok")) (str "a\tb") = none := by
  decide

/-- Claim C7 (amended): for every username and token containing no tab and
no newline, saving the pair and loading the same username returns the same
token; loading a username that was never saved stays a cache miss; in
particular saving alice/tok123 to an empty store loads back tok123 for
alice and not-found for bob. -/
theorem claimC7_roundtrip (f : Option Str) (u t u' : Str) :
    (Clean u → Clean t → loadToken (saveToken f u t) u = some t)
    ∧ (Clean u → Clean t → u' ≠ u → loadTokenFile f u' = none →
      loadToken (saveToken f u t) u' = none)
    ∧ loadToken (saveToken none (str "alice") (str "tok123")) (str "alice") =
        some (str "tok123")
    ∧ loadToken (saveToken none (str "alice") (str "tok123")) (str "bob") =
        none := by
  refine ⟨?_, ?_, by decide, by decide⟩
  · intro hu ht
    exact loadToken_saveToken_self f u t hu ht
  · intro hu ht hne hmiss
    exact loadToken_saveToken_other f u t u' hu ht hne hmiss

/-- Witness for claim C7 (amended): the round trip and the miss at concrete
clean inputs, against a store already holding an entry for bob. -/
theorem claimC7_witness :
    loadToken (saveToken (some (str "bob\tB")) (str "alice") (str "tok123"))
        (str "alice") = some (str "tok123")
    ∧ loadToken (saveToken (some (str "bob\tB")) (str "alice") (str "tok123"))
        (str "carol") = none := by
  constructor
  · exact (claimC7_roundtrip (some (str "bob\tB")) (str "alice") (str "tok123")
      (str "carol")).1 (by decide) (by decide)
  · exact (claimC7_roundtrip (some (str "bob\tB")) (str "alice") (str "tok123")
      (str "carol")).2.1 (by decide) (by decide) (by decide) (by decide)

/-- Claim C8: dispatcher request construction. A non-empty access token is
written into the query-parameter dict under `access_token` and never into a
header; a non-empty body is sent with the JSON content-type header and as
the request entity; an empty body means no body and no header. -/
theorem claimC8_request_construction (cr : Option Bool) (root suf tok : Str)
    (params data : List (Str × Json)) (resp : Json) :
    (tok ≠ [] →
      dGet (bare_request cr root suf tok params data resp).request.params
          (str "access_token") = some (.s tok)
      ∧ dHas (bare_request cr root suf tok params data resp).request.headers
          (str "access_token") = false)
    ∧ (data = [] →
      (bare_request cr root suf tok params data resp).request.body = none
      ∧ (bare_request cr root suf tok params data resp).request.headers = [])
    ∧ (data ≠ [] →
      (bare_request cr root suf tok params data resp).request.body = some data
      ∧ (bare_request cr root suf tok params data resp).request.headers =
          [(str "Content-type", str "application/json")]) := by
  refine ⟨?_, ?_, ?_⟩
  · intro h
    constructor
    · show dGet (if tok ≠ [] then dInsert params (str "access_token") (.s tok)
        else params) (str "access_token") = some (.s tok)
      rw [if_pos h]
      exact dGet_dInsert_self _ _ _
    · show dHas (if data.isEmpty then []
        else [(str "Content-type", str "application/json")])
        (str "access_token") = false
      cases data with
      | nil => rfl
      | cons kv rest => rfl
  · intro h
    subst h
    exact ⟨rfl, rfl⟩
  · intro h
    cases data with
    | nil => exact absurd rfl h
    | cons kv rest => exact ⟨rfl, rfl⟩

/-- Witness for claim C8: a request with token "tok" and a one-entry body
carries the token in its params, no access token header, the JSON
content-type header and the body; the same request with an empty body has
no body and no headers. -/
theorem claimC8_witness :
    (dGet (bare_request (some true) apiurl (str "me") (str "tok") []
        [(str "name", Json.s (str "q"))] Json.null).request.params
        (str "access_token") = some (.s (str "tok"))
      ∧ dHas (bare_request (some true) apiurl (str "me") (str "tok") []
        [(str "name", Json.s (str "q"))] Json.null).request.headers
        (str "access_token") = false)
    ∧ ((bare_request (some true) apiurl (str "me") (str "tok") []
        [(str "name", Json.s (str "q"))] Json.null).request.body =
        some [(str "name", Json.s (str "q"))]
      ∧ (bare_request (some true) apiurl (str "me") (str "tok") []
        [(str "name", Json.s (str "q"))] Json.null).request.headers =
        [(str "Content-type", str "application/json")])
    ∧ ((bare_request (some true) apiurl (str "me") (str "tok") [] []
        Json.null).request.body = none
      ∧ (bare_request (some true) apiurl (str "me") (str "tok") [] []
        Json.null).request.headers = []) := by
  refine ⟨?_, ?_, ?_⟩
  · exact (claimC8_request_construction (some true) apiurl (str "me")
      (str "tok") [] [(str "name", Json.s (str "q"))] Json.null).1 (by decide)
  · exact (claimC8_request_construction (some true) apiurl (str "me")
      (str "tok") [] [(str "name", Json.s (str "q"))] Json.null).2.2
      (by exact List.cons_ne_nil _ _)
  · exact (claimC8_request_construction (some true) apiurl (str "me")
      (str "tok") [] [] Json.null).2.1 rfl

theorem bare_request_obj_ok (cr : Bool) (root suf tok : Str)
    (params data : List (Str × Json)) (fields : List (Str × Json)) :
    ∃ b, (bare_request (some cr) root suf tok params data
      (.obj fields)).result = .ok (b, .obj fields) := by
  unfold bare_request
  simp only [pyContains]
  cases hge : dGet fields (str "errors") with
  | none =>
      refine ⟨false, ?_⟩
      simp [dHas, hge]
  | some ev =>
      by_cases ht : ev.truthy
      · refine ⟨cr, ?_⟩
        simp [dHas, hge, Json.getItem, ht]
      · refine ⟨false, ?_⟩
        simp [dHas, hge, Json.getItem, ht]

/-- Claim C9: for every response body to the project-listing call (any
object, under either console-reporting setting), the operation returns the
value of the `results` field when that key is present, and the raw body
unchanged otherwise. -/
theorem claimC9_listProjects_unwrap (cr : Bool) (tok : Str)
    (fields : List (Str × Json)) :
    (∀ v, dGet fields (str "results") = some v →
      get_projects (some cr) tok (.obj fields) = .ok v)
    ∧ (dGet fields (str "results") = none →
      get_projects (some cr) tok (.obj fields) = .ok (.obj fields)) := by
  obtain ⟨b, hb⟩ := bare_request_obj_ok cr apiurl (str "projects") tok [] [] fields
  constructor
  · intro v hv
    unfold get_projects request
    rw [hb]
    simp [pyContains, dHas, hv, Json.getItem]
  · intro hnone
    unfold get_projects request
    rw [hb]
    simp [pyContains, dHas, hnone]

/-- Witness for claim C9: a body whose `results` field is a one-element
list is unwrapped to that list; a body with no `results` key (even one
carrying a truthy `errors` field) is returned unchanged. -/
theorem claimC9_witness :
    get_projects (some true) (str "tok")
        (.obj [(str "results", Json.arr [Json.i 1])]) =
      .ok (Json.arr [Json.i 1])
    ∧ get_projects (some true) (str "tok")
        (.obj [(str "errors", Json.s (str "boom"))]) =
      .ok (.obj [(str "errors", Json.s (str "boom"))]) := by
  constructor
  · exact (claimC9_listProjects_unwrap true (str "tok")
      [(str "results", Json.arr [Json.i 1])]).1 (Json.arr [Json.i 1]) rfl
  · exact (claimC9_listProjects_unwrap true (str "tok")
      [(str "errors", Json.s (str "boom"))]).2 rfl

/-- Claim C10: the dispatcher writes `access_token` into the caller's
params dict in place, and the `params = ` default of `request` is one
shared dict object, so after a first call made without an explicit params
argument the shared default holds the injected token, and a second such
call observes that mutated dict rather than a fresh empty one. -/
theorem claimC10_shared_default_params (cr : Option Bool) (tok a1 a2 : Str)
    (r1 r2 : Json) (h : tok ≠ []) :
    ((request_call ⟨cr, tok, []⟩ a1 none r1).1).request_params_default =
        [(str "access_token", Json.s tok)]
    ∧ ((request_call ((request_call ⟨cr, tok, []⟩ a1 none r1).1) a2 none
        r2).2).request.params = [(str "access_token", Json.s tok)]
    ∧ ((request_call ((request_call ⟨cr, tok, []⟩ a1 none r1).1) a2 none
        r2).1).request_params_default = [(str "access_token", Json.s tok)] := by
  have h1 : ((request_call ⟨cr, tok, []⟩ a1 none r1).1).request_params_default =
      [(str "access_token", Json.s tok)] := by
    show (if tok ≠ [] then dInsert [] (str "access_token") (.s tok) else []) =
      [(str "access_token", Json.s tok)]
    rw [if_pos h]
    rfl
  have h2 : ((request_call ((request_call ⟨cr, tok, []⟩ a1 none r1).1) a2 none
      r2).2).request.params = [(str "access_token", Json.s tok)] := by
    show (if tok ≠ [] then
        dInsert ((request_call ⟨cr, tok, []⟩ a1 none r1).1).request_params_default
          (str "access_token") (.s tok)
      else ((request_call ⟨cr, tok, []⟩ a1 none r1).1).request_params_default) =
      [(str "access_token", Json.s tok)]
    rw [if_pos h, h1]
    simp [dInsert]
  refine ⟨h1, h2, ?_⟩
  show ((request_call ((request_call ⟨cr, tok, []⟩ a1 none r1).1) a2 none
      r2).2).request.params = [(str "access_token", Json.s tok)]
  exact h2

/-- Witness for claim C10: two parameterless calls with token "tok" leave
and observe the shared default dict holding the access token. -/
theorem claimC10_witness :
    ((request_call ⟨some true, str "tok", []⟩ (str "projects") none
        Json.null).1).request_params_default =
      [(str "access_token", Json.s (str "tok"))]
    ∧ ((request_call ((request_call ⟨some true, str "tok", []⟩ (str "projects")
        none Json.null).1) (str "me") none Json.null).2).request.params =
      [(str "access_token", Json.s (str "tok"))] := by
  have h := claimC10_shared_default_params (some true) (str "tok")
    (str "projects") (str "me") Json.null Json.null (by decide)
  exact ⟨h.1, h.2.1⟩
